import Mathlib

/-!
# Verification of the `blades` pipeline core (`flow.Chain`) and the Zeus adapter

Shallow embedding of the fork's `flow` package (`Chain`, `NewChain`,
`NewChainSilent`, `Run`, `runSilent`, `runVerbose`, `RunStream`) and of the
Zeus provider adapter's `convertToZeusRequest`.

The core `blades` types (`Message`, `Prompt`, `Generation`, `NewPrompt`,
`StreamPipe`) live upstream and are not part of this repository's sources;
they are modelled from the specification's data model (§3) and marked as such.
Go's `nil`/error pairs are modelled explicitly: a `*Generation, error` return
becomes `Outcome.ret (g : Option Generation) (e : Option String)`, and a
nil-pointer dereference becomes `Outcome.panic`.
-/

namespace Blades

/-- A content part of a message.  Modelled from the spec: a content part is a
tagged union of text, file-reference and opaque-data. -/
inductive Part where
  | text (s : String)
  | file (uri : String)
  | data (bytes : List Nat)
deriving DecidableEq, Repr

/-- Modelled from the spec: a role-tagged content unit.  The role is kept as a
raw string because provider adapters must normalize role values outside the
closed set {system, user, assistant}. -/
structure Message where
  role : String
  parts : List Part
deriving DecidableEq, Repr

/-- The concatenated text of a message's text parts, in order; non-text parts
contribute nothing.  This is the loop `for part in msg.Parts { if TextPart:
content += text }` of the Zeus adapter, and the text view of the spec's data
model. -/
def Message.textContent (m : Message) : String :=
  m.parts.foldl (fun acc p => match p with
    | Part.text s => acc ++ s
    | _ => acc) ""

/-- Modelled from the spec: a ConversationState, an ordered sequence of
messages. -/
structure Prompt where
  messages : List Message
deriving DecidableEq, Repr

/-- Modelled from the spec: `blades.NewPrompt(msgs...)` builds a
ConversationState solely from the given messages. -/
def NewPrompt (msgs : List Message) : Prompt := ⟨msgs⟩

/-- Modelled from the spec: a step result, the resulting ConversationState. -/
structure Generation where
  messages : List Message
deriving DecidableEq, Repr

/-- Modelled from the spec: the derived convenience view of a Generation, the
concatenated text of the newest assistant message (empty when there is
none). -/
def Generation.Text (g : Generation) : String :=
  match (g.messages.filter (fun m => m.role = "assistant")).getLast? with
  | some m => m.textContent
  | none => ""

/-- An opaque model option, forwarded verbatim by the pipeline. -/
structure ModelOption where
  tag : String
deriving DecidableEq, Repr

/-- A Go `context.Context` as the chain observes it: for each 1-based step
boundary `k`, whether the context has been cancelled before step `k`
starts. -/
structure Ctx where
  cancelledBefore : Nat → Bool

/-- The `blades.Runner` capability: `Run(ctx, prompt, opts...) ->
(*Generation, error)`, modelled as a pure function (an error return carries a
nil Generation). -/
def Runner : Type := Ctx → Prompt → List ModelOption → Except String Generation

/-- Result of a Go `(*Generation, error)` returning call that may also crash:
`ret g e` is a normal return of the pair, `panic` is a nil-pointer
dereference. -/
inductive Outcome where
  | ret (g : Option Generation) (e : Option String)
  | panic
deriving DecidableEq, Repr

end Blades

namespace Flow

open Blades

/-- `flow.Chain`: an ordered sequence of runners plus a verbose flag. -/
structure Chain where
  runners : List Runner
  verbose : Bool

/-- `flow.NewChain`: verbose output enabled by default. -/
def NewChain (runners : List Runner) : Chain :=
  { runners := runners, verbose := true }

/-- `flow.NewChainSilent`: verbose output disabled. -/
def NewChainSilent (runners : List Runner) : Chain :=
  { runners := runners, verbose := false }

/-- The loop body shared by `runSilent`, `runVerbose` and `RunStream`'s
producer, instrumented with what each executed iteration observably does:
the generations produced by the successful invocations in step order, the
error of the first failing invocation, and the number of runner invocations
made.  Each loop iteration invokes exactly one runner; an error ends the
loop. -/
def runSteps (ctx : Ctx) (opts : List ModelOption) :
    List Runner → Prompt → List Generation × Option String × Nat
  | [], _ => ([], none, 0)
  | r :: rs, p =>
    match r ctx p opts with
    | Except.error e => ([], some e, 1)
    | Except.ok g =>
      let rest := runSteps ctx opts rs (NewPrompt g.messages)
      (g :: rest.1, rest.2.1, rest.2.2 + 1)

/-- The generations a trace delivered. -/
def traceGens (t : List Generation × Option String × Nat) : List Generation := t.1

/-- The terminal error of a trace, if any. -/
def traceErr (t : List Generation × Option String × Nat) : Option String := t.2.1

/-- How many runners a trace invoked. -/
def traceInvoked (t : List Generation × Option String × Nat) : Nat := t.2.2

/-- The loop of `Chain.runSilent`, translated directly: `last` is the `last`
variable (nil until the first successful step); on a step error return
`(nil, err)`; after the loop return `(last, nil)`. -/
def runSilentGo (ctx : Ctx) (opts : List ModelOption) :
    List Runner → Prompt → Option Generation → Outcome
  | [], _, last => Outcome.ret last none
  | r :: rs, p, _ =>
    match r ctx p opts with
    | Except.error e => Outcome.ret none (some e)
    | Except.ok g => runSilentGo ctx opts rs (NewPrompt g.messages) (some g)

/-- `Chain.runSilent`. -/
def runSilent (c : Chain) (ctx : Ctx) (prompt : Prompt)
    (opts : List ModelOption) : Outcome :=
  runSilentGo ctx opts c.runners prompt none

/-- The loop of `Chain.runVerbose`, translated directly: printing aside, the
loop is the same as `runSilent`'s with `finalResult` in place of `last`, but
after the loop the code calls `finalResult.Text()`.  When no iteration ran,
`finalResult` is a nil `*blades.Generation` and `Text()` ranges over the
messages of a nil pointer: a nil-pointer dereference, modelled as
`Outcome.panic`. -/
def runVerboseGo (ctx : Ctx) (opts : List ModelOption) :
    List Runner → Prompt → Option Generation → Outcome
  | [], _, finalResult =>
    match finalResult with
    | none => Outcome.panic
    | some g => Outcome.ret (some g) none
  | r :: rs, p, _ =>
    match r ctx p opts with
    | Except.error e => Outcome.ret none (some e)
    | Except.ok g => runVerboseGo ctx opts rs (NewPrompt g.messages) (some g)

/-- `Chain.runVerbose`. -/
def runVerbose (c : Chain) (ctx : Ctx) (prompt : Prompt)
    (opts : List ModelOption) : Outcome :=
  runVerboseGo ctx opts c.runners prompt none

/-- `Chain.Run`: dispatches to the silent or the verbose path on the verbose
flag. -/
def Run (c : Chain) (ctx : Ctx) (prompt : Prompt)
    (opts : List ModelOption) : Outcome :=
  if !c.verbose then runSilent c ctx prompt opts
  else runVerbose c ctx prompt opts

/-- Modelled from the spec: the consumer-side denotation of a
`blades.Streamer`: the values the producer handed off, in hand-off order,
followed by completion or by the producer's terminal error. -/
structure StreamResult where
  values : List Generation
  terminal : Option String
deriving DecidableEq, Repr

/-- `Chain.RunStream`: returns the stream handle and a nil call-time error.
The producer closure is the same loop as `runSilent`'s, sending each
successful generation as soon as it is ready and returning the first step
error as the pipe's terminal error; its observable behaviour is exactly
`runSteps`. -/
def RunStream (c : Chain) (ctx : Ctx) (prompt : Prompt)
    (opts : List ModelOption) : StreamResult × Option String :=
  let t := runSteps ctx opts c.runners prompt
  (⟨traceGens t, traceErr t⟩, none)

/-- The prompt the loop holds after replaying the successful steps that
produced `gens`, starting from `p`: unchanged when no step ran, otherwise
rebuilt from each generation's messages in turn. -/
def stateAfter : Prompt → List Generation → Prompt
  | p, [] => p
  | _, g :: gens => stateAfter (NewPrompt g.messages) gens

/-- The value of the loop's `last` variable after the successful steps that
produced `gens`, when it held `acc` beforehand. -/
def lastOr : List Generation → Option Generation → Option Generation
  | [], acc => acc
  | g :: gens, _ => lastOr gens (some g)

theorem lastOr_some (g : Generation) (gens : List Generation) :
    lastOr gens (some g) = (g :: gens).getLast? := by
  induction gens generalizing g with
  | nil => rfl
  | cons a t ih => rw [lastOr, ih, List.getLast?_cons_cons]

theorem lastOr_none (gens : List Generation) :
    lastOr gens none = gens.getLast? := by
  cases gens with
  | nil => rfl
  | cons a t => rw [lastOr, lastOr_some]

theorem lastOr_append (xs ys : List Generation) (acc : Option Generation) :
    lastOr (xs ++ ys) acc = lastOr ys (lastOr xs acc) := by
  induction xs generalizing acc with
  | nil => rfl
  | cons x t ih => rw [List.cons_append, lastOr, lastOr, ih]

/-- The silent loop agrees with the instrumented trace: it returns the first
step error with a nil generation, or the last produced generation (the prior
`last` value when no step ran). -/
theorem runSilentGo_eq (ctx : Ctx) (opts : List ModelOption) :
    ∀ (rs : List Runner) (p : Prompt) (acc : Option Generation),
    runSilentGo ctx opts rs p acc =
      match runSteps ctx opts rs p with
      | (_, some e, _) => Outcome.ret none (some e)
      | (gens, none, _) => Outcome.ret (lastOr gens acc) none
  | [], p, acc => rfl
  | r :: rs, p, acc => by
    cases hr : r ctx p opts with
    | error e => simp [runSilentGo, runSteps, hr]
    | ok g =>
      simp only [runSilentGo, runSteps, hr]
      rw [runSilentGo_eq ctx opts rs (Blades.NewPrompt g.messages) (some g)]
      rcases hrest : runSteps ctx opts rs (Blades.NewPrompt g.messages) with ⟨gens, terr, n⟩
      cases terr with
      | none => simp [lastOr]
      | some e => simp

/-- The verbose loop agrees with the instrumented trace, except that after a
fully successful run of zero iterations the final `Text()` call dereferences
the nil `finalResult` and panics. -/
theorem runVerboseGo_eq (ctx : Ctx) (opts : List ModelOption) :
    ∀ (rs : List Runner) (p : Prompt) (acc : Option Generation),
    runVerboseGo ctx opts rs p acc =
      match runSteps ctx opts rs p with
      | (_, some e, _) => Outcome.ret none (some e)
      | (gens, none, _) =>
        match lastOr gens acc with
        | none => Outcome.panic
        | some g => Outcome.ret (some g) none
  | [], p, acc => by cases acc <;> rfl
  | r :: rs, p, acc => by
    cases hr : r ctx p opts with
    | error e => simp [runVerboseGo, runSteps, hr]
    | ok g =>
      simp only [runVerboseGo, runSteps, hr]
      rw [runVerboseGo_eq ctx opts rs (Blades.NewPrompt g.messages) (some g)]
      rcases hrest : runSteps ctx opts rs (Blades.NewPrompt g.messages) with ⟨gens, terr, n⟩
      cases terr with
      | none => simp [lastOr]
      | some e => simp

/-- Splitting the instrumented trace at a list append: when the first part
fails its trace is the whole trace, and when it succeeds the second part
continues from the state its last generation determines. -/
theorem runSteps_append (ctx : Ctx) (opts : List ModelOption) :
    ∀ (xs ys : List Runner) (p : Prompt),
    runSteps ctx opts (xs ++ ys) p =
      match runSteps ctx opts xs p with
      | (gens, some e, n) => (gens, some e, n)
      | (gens, none, n) =>
        let t := runSteps ctx opts ys (stateAfter p gens)
        (gens ++ t.1, t.2.1, n + t.2.2)
  | [], ys, p => by simp [runSteps, stateAfter]
  | x :: xs, ys, p => by
    cases hr : x ctx p opts with
    | error e => simp [runSteps, hr]
    | ok g =>
      simp only [List.cons_append, runSteps, hr, List.append_eq]
      rw [runSteps_append ctx opts xs ys (Blades.NewPrompt g.messages)]
      rcases hrest : runSteps ctx opts xs (Blades.NewPrompt g.messages) with ⟨gens, terr, n⟩
      cases terr with
      | none => simp [stateAfter]; omega
      | some e => simp

/-- A fully successful trace produced exactly one generation per step and
invoked every step exactly once. -/
theorem runSteps_success_length (ctx : Ctx) (opts : List ModelOption) :
    ∀ (rs : List Runner) (p : Prompt),
    traceErr (runSteps ctx opts rs p) = none →
    (traceGens (runSteps ctx opts rs p)).length = rs.length ∧
    traceInvoked (runSteps ctx opts rs p) = rs.length
  | [], p, _ => by constructor <;> rfl
  | r :: rs, p, h => by
    cases hr : r ctx p opts with
    | error e =>
      simp [runSteps, traceErr, hr] at h
    | ok g =>
      simp only [runSteps, traceErr, traceGens, traceInvoked, hr] at h ⊢
      have ih := runSteps_success_length ctx opts rs (Blades.NewPrompt g.messages) h
      simp only [traceGens, traceErr, traceInvoked] at ih
      simp [ih.1, ih.2]

/-- When the successful steps produced at least one generation, the loop's
next prompt is built from the messages of the last one. -/
theorem stateAfter_of_getLast :
    ∀ (gens : List Generation) (p : Prompt) (g : Generation),
    gens.getLast? = some g → stateAfter p gens = Blades.NewPrompt g.messages
  | [], p, g, h => by simp at h
  | [a], p, g, h => by
    simp only [List.getLast?_singleton, Option.some.injEq] at h
    subst h
    rfl
  | a :: b :: t, p, g, h => by
    rw [List.getLast?_cons_cons] at h
    exact stateAfter_of_getLast (b :: t) (Blades.NewPrompt a.messages) g h

end Flow

namespace Zeus

open Blades

/-- A `{"role": ..., "content": ...}` entry of the Zeus request body. -/
structure ZeusMessage where
  role : String
  content : String
deriving DecidableEq, Repr

/-- The role switch of `convertToZeusRequest`: roles in the closed set map to
themselves, any other role defaults to `"user"`. -/
def mapRole (role : String) : String :=
  match role with
  | "assistant" => "assistant"
  | "user" => "user"
  | "system" => "system"
  | _ => "user"

/-- `ChatProvider.convertToZeusRequest`, restricted to the message list it
builds: for each request message, map the role through the switch, concatenate
the text parts, and append the entry only when the content is non-empty. -/
def convertToZeusRequest (msgs : List Message) : List ZeusMessage :=
  msgs.foldl
    (fun acc msg =>
      let role := mapRole msg.role
      let content := msg.textContent
      if content ≠ "" then acc ++ [⟨role, content⟩] else acc)
    []

/-- The per-message view of the adapter's loop body: the entry a message
contributes to the request, if any. -/
def zeusEntry (msg : Message) : Option ZeusMessage :=
  if msg.textContent ≠ "" then some ⟨mapRole msg.role, msg.textContent⟩ else none

theorem convertToZeusRequest_go (msgs : List Message) :
    ∀ acc : List ZeusMessage,
    msgs.foldl
      (fun acc msg =>
        let role := mapRole msg.role
        let content := msg.textContent
        if content ≠ "" then acc ++ [⟨role, content⟩] else acc)
      acc = acc ++ msgs.filterMap zeusEntry := by
  induction msgs with
  | nil => intro acc; simp
  | cons m t ih =>
    intro acc
    rw [List.foldl_cons, ih]
    by_cases hm : m.textContent = "" <;>
      simp [zeusEntry, List.filterMap_cons, hm]

/-- The adapter's accumulating loop is the filterMap of the per-message
view. -/
theorem convertToZeusRequest_eq (msgs : List Message) :
    convertToZeusRequest msgs = msgs.filterMap zeusEntry := by
  have h := convertToZeusRequest_go msgs []
  simpa [convertToZeusRequest] using h

end Zeus

namespace Samples

open Blades Flow

/-- `blades.UserMessage`, modelled from the spec's data model. -/
def userMessage (s : String) : Message := ⟨"user", [Part.text s]⟩

/-- An assistant message with a single text part. -/
def assistantMessage (s : String) : Message := ⟨"assistant", [Part.text s]⟩

/-- A context that is never cancelled. -/
def ctxNone : Ctx := ⟨fun _ => false⟩

/-- A context cancelled from the boundary before step `k` (1-based) on. -/
def ctxCancelledFrom (k : Nat) : Ctx := ⟨fun i => decide (k ≤ i)⟩

/-- A step that ignores its context and prompt and always succeeds with `g`. -/
def constRunner (g : Generation) : Runner := fun _ _ _ => Except.ok g

/-- A step that ignores its context and prompt and always fails with `e`. -/
def failRunner (e : String) : Runner := fun _ _ _ => Except.error e

/-- The concatenated text of a prompt's messages, the input text a scenario
step reads. -/
def promptText (p : Prompt) : String :=
  p.messages.foldl (fun acc m => acc ++ m.textContent) ""

/-- Uppercase a string character by character. -/
def upperString (s : String) : String := String.mk (s.data.map Char.toUpper)

/-- Scenario step A: uppercase the input text. -/
def upperRunner : Runner :=
  fun _ p _ => Except.ok ⟨[assistantMessage (upperString (promptText p))]⟩

/-- Scenario step B: append `"!"` to the input text. -/
def exclaimRunner : Runner :=
  fun _ p _ => Except.ok ⟨[assistantMessage (promptText p ++ "!")]⟩

/-- The scenario's initial prompt, text `"hello"`. -/
def pHello : Prompt := NewPrompt [userMessage "hello"]

/-- A sample generation. -/
def genA : Generation := ⟨[assistantMessage "A"]⟩

/-- Another sample generation. -/
def genB : Generation := ⟨[assistantMessage "B"]⟩

end Samples

section Claims

open Blades Flow Zeus Samples

/-- C1: if step k of a chain returns an error, blocking `Run` returns exactly
that error, unwrapped, together with a nil Generation, in both the silent and
the verbose execution paths, and steps k+1..N are never invoked: the run makes
exactly k runner invocations. -/
theorem chain_abort_on_error (ctx : Ctx) (opts : List ModelOption)
    (pre : List Runner) (rk : Runner) (post : List Runner) (p : Prompt)
    (gens : List Generation) (n : Nat) (e : String)
    (hpre : runSteps ctx opts pre p = (gens, none, n))
    (hk : rk ctx (stateAfter p gens) opts = Except.error e) :
    Run (NewChainSilent (pre ++ rk :: post)) ctx p opts = Outcome.ret none (some e) ∧
    Run (NewChain (pre ++ rk :: post)) ctx p opts = Outcome.ret none (some e) ∧
    traceInvoked (runSteps ctx opts (pre ++ rk :: post) p) = pre.length + 1 := by
  have hn : n = pre.length := by
    have hs := (runSteps_success_length ctx opts pre p (by rw [hpre]; rfl)).2
    rw [hpre] at hs
    exact hs
  have htr : runSteps ctx opts (pre ++ rk :: post) p = (gens, some e, n + 1) := by
    have h := runSteps_append ctx opts pre (rk :: post) p
    rw [hpre] at h
    simp only [runSteps, hk] at h
    simpa using h
  refine ⟨?_, ?_, ?_⟩
  · rw [show Run (NewChainSilent (pre ++ rk :: post)) ctx p opts
        = runSilentGo ctx opts (pre ++ rk :: post) p none from rfl,
      runSilentGo_eq, htr]
  · rw [show Run (NewChain (pre ++ rk :: post)) ctx p opts
        = runVerboseGo ctx opts (pre ++ rk :: post) p none from rfl,
      runVerboseGo_eq, htr]
  · rw [htr, hn]
    rfl

theorem chain_abort_on_error_witness :
    Run (NewChainSilent [constRunner genA, failRunner "boom", constRunner genB])
        ctxNone pHello [] = Outcome.ret none (some "boom") ∧
    Run (NewChain [constRunner genA, failRunner "boom", constRunner genB])
        ctxNone pHello [] = Outcome.ret none (some "boom") ∧
    traceInvoked (runSteps ctxNone []
        [constRunner genA, failRunner "boom", constRunner genB] pHello) = 2 :=
  chain_abort_on_error ctxNone [] [constRunner genA] (failRunner "boom")
    [constRunner genB] pHello [genA] 1 "boom" rfl rfl

/-- C2: the conversation state passed into step i (i > 1) is derived
exclusively from step i-1's resulting messages via `NewPrompt`: whenever two
executions of the first i-1 steps (from possibly different original prompts)
end in the same last generation, the remaining steps see exactly the state
`NewPrompt g.messages` and behave identically in both blocking modes and in
the stream producer — the original prompt is never re-injected. -/
theorem chain_state_threading (ctx : Ctx) (opts : List ModelOption)
    (pre rest : List Runner) (p₁ p₂ : Prompt)
    (gens₁ gens₂ : List Generation) (n₁ n₂ : Nat) (g : Generation)
    (h₁ : runSteps ctx opts pre p₁ = (gens₁, none, n₁))
    (h₂ : runSteps ctx opts pre p₂ = (gens₂, none, n₂))
    (hg₁ : gens₁.getLast? = some g) (hg₂ : gens₂.getLast? = some g) :
    runSteps ctx opts (pre ++ rest) p₁
      = (gens₁ ++ traceGens (runSteps ctx opts rest (NewPrompt g.messages)),
         traceErr (runSteps ctx opts rest (NewPrompt g.messages)),
         n₁ + traceInvoked (runSteps ctx opts rest (NewPrompt g.messages))) ∧
    runSteps ctx opts (pre ++ rest) p₂
      = (gens₂ ++ traceGens (runSteps ctx opts rest (NewPrompt g.messages)),
         traceErr (runSteps ctx opts rest (NewPrompt g.messages)),
         n₂ + traceInvoked (runSteps ctx opts rest (NewPrompt g.messages))) ∧
    (RunStream (NewChain (pre ++ rest)) ctx p₁ opts).1.values
      = gens₁ ++ traceGens (runSteps ctx opts rest (NewPrompt g.messages)) ∧
    (RunStream (NewChain (pre ++ rest)) ctx p₂ opts).1.values
      = gens₂ ++ traceGens (runSteps ctx opts rest (NewPrompt g.messages)) ∧
    Run (NewChainSilent (pre ++ rest)) ctx p₁ opts
      = Run (NewChainSilent (pre ++ rest)) ctx p₂ opts ∧
    Run (NewChain (pre ++ rest)) ctx p₁ opts
      = Run (NewChain (pre ++ rest)) ctx p₂ opts := by
  have htr₁ : runSteps ctx opts (pre ++ rest) p₁
      = (gens₁ ++ traceGens (runSteps ctx opts rest (NewPrompt g.messages)),
         traceErr (runSteps ctx opts rest (NewPrompt g.messages)),
         n₁ + traceInvoked (runSteps ctx opts rest (NewPrompt g.messages))) := by
    have h := runSteps_append ctx opts pre rest p₁
    rw [h₁] at h
    simpa [stateAfter_of_getLast gens₁ p₁ g hg₁, traceGens, traceErr,
      traceInvoked] using h
  have htr₂ : runSteps ctx opts (pre ++ rest) p₂
      = (gens₂ ++ traceGens (runSteps ctx opts rest (NewPrompt g.messages)),
         traceErr (runSteps ctx opts rest (NewPrompt g.messages)),
         n₂ + traceInvoked (runSteps ctx opts rest (NewPrompt g.messages))) := by
    have h := runSteps_append ctx opts pre rest p₂
    rw [h₂] at h
    simpa [stateAfter_of_getLast gens₂ p₂ g hg₂, traceGens, traceErr,
      traceInvoked] using h
  refine ⟨htr₁, htr₂, ?_, ?_, ?_, ?_⟩
  · show traceGens (runSteps ctx opts (pre ++ rest) p₁) = _
    rw [htr₁]
    rfl
  · show traceGens (runSteps ctx opts (pre ++ rest) p₂) = _
    rw [htr₂]
    rfl
  · rw [show Run (NewChainSilent (pre ++ rest)) ctx p₁ opts
        = runSilentGo ctx opts (pre ++ rest) p₁ none from rfl,
      show Run (NewChainSilent (pre ++ rest)) ctx p₂ opts
        = runSilentGo ctx opts (pre ++ rest) p₂ none from rfl,
      runSilentGo_eq, runSilentGo_eq, htr₁, htr₂]
    cases hterr : traceErr (runSteps ctx opts rest (NewPrompt g.messages)) with
    | some e => rfl
    | none =>
      dsimp only
      rw [lastOr_append, lastOr_append, lastOr_none, lastOr_none, hg₁, hg₂]
  · rw [show Run (NewChain (pre ++ rest)) ctx p₁ opts
        = runVerboseGo ctx opts (pre ++ rest) p₁ none from rfl,
      show Run (NewChain (pre ++ rest)) ctx p₂ opts
        = runVerboseGo ctx opts (pre ++ rest) p₂ none from rfl,
      runVerboseGo_eq, runVerboseGo_eq, htr₁, htr₂]
    cases hterr : traceErr (runSteps ctx opts rest (NewPrompt g.messages)) with
    | some e => rfl
    | none =>
      dsimp only
      rw [lastOr_append, lastOr_append, lastOr_none, lastOr_none, hg₁, hg₂]

theorem chain_state_threading_witness :
    runSteps ctxNone [] ([constRunner genA] ++ [exclaimRunner]) pHello
      = ([genA] ++ traceGens (runSteps ctxNone [] [exclaimRunner] (NewPrompt genA.messages)),
         traceErr (runSteps ctxNone [] [exclaimRunner] (NewPrompt genA.messages)),
         1 + traceInvoked (runSteps ctxNone [] [exclaimRunner] (NewPrompt genA.messages))) ∧
    runSteps ctxNone [] ([constRunner genA] ++ [exclaimRunner]) (NewPrompt [])
      = ([genA] ++ traceGens (runSteps ctxNone [] [exclaimRunner] (NewPrompt genA.messages)),
         traceErr (runSteps ctxNone [] [exclaimRunner] (NewPrompt genA.messages)),
         1 + traceInvoked (runSteps ctxNone [] [exclaimRunner] (NewPrompt genA.messages))) ∧
    (RunStream (NewChain ([constRunner genA] ++ [exclaimRunner])) ctxNone pHello []).1.values
      = [genA] ++ traceGens (runSteps ctxNone [] [exclaimRunner] (NewPrompt genA.messages)) ∧
    (RunStream (NewChain ([constRunner genA] ++ [exclaimRunner])) ctxNone (NewPrompt []) []).1.values
      = [genA] ++ traceGens (runSteps ctxNone [] [exclaimRunner] (NewPrompt genA.messages)) ∧
    Run (NewChainSilent ([constRunner genA] ++ [exclaimRunner])) ctxNone pHello []
      = Run (NewChainSilent ([constRunner genA] ++ [exclaimRunner])) ctxNone (NewPrompt []) [] ∧
    Run (NewChain ([constRunner genA] ++ [exclaimRunner])) ctxNone pHello []
      = Run (NewChain ([constRunner genA] ++ [exclaimRunner])) ctxNone (NewPrompt []) [] :=
  chain_state_threading ctxNone [] [constRunner genA] [exclaimRunner] pHello
    (NewPrompt []) [genA] [genA] 1 1 genA rfl rfl rfl rfl

/-- C3: whenever blocking `Run` returns a generation with a nil error, that
generation is exactly the last value of `RunStream`'s sequence over the same
prompt and options (all steps in the embedding are deterministic). -/
theorem run_equals_stream_last (c : Chain) (ctx : Ctx) (p : Prompt)
    (opts : List ModelOption) (g : Option Generation)
    (h : Run c ctx p opts = Outcome.ret g none) :
    g = ((RunStream c ctx p opts).1.values).getLast? := by
  have hvals : (RunStream c ctx p opts).1.values
      = traceGens (runSteps ctx opts c.runners p) := rfl
  rcases ht : runSteps ctx opts c.runners p with ⟨gens, terr, n⟩
  rw [hvals, ht]
  cases hv : c.verbose with
  | false =>
    have hrun : Run c ctx p opts = runSilentGo ctx opts c.runners p none := by
      simp [Run, runSilent, hv]
    rw [hrun, runSilentGo_eq, ht] at h
    cases terr with
    | some e => simp at h
    | none =>
      dsimp only at h
      simp only [Outcome.ret.injEq] at h
      calc g = lastOr gens none := h.1.symm
        _ = gens.getLast? := lastOr_none gens
        _ = (traceGens (gens, none, n)).getLast? := rfl
  | true =>
    have hrun : Run c ctx p opts = runVerboseGo ctx opts c.runners p none := by
      simp [Run, runVerbose, hv]
    rw [hrun, runVerboseGo_eq, ht] at h
    cases terr with
    | some e => simp at h
    | none =>
      dsimp only at h
      cases hl : lastOr gens none with
      | none => rw [hl] at h; simp at h
      | some gl =>
        rw [hl] at h
        dsimp only at h
        simp only [Outcome.ret.injEq] at h
        calc g = some gl := h.1.symm
          _ = lastOr gens none := hl.symm
          _ = gens.getLast? := lastOr_none gens
          _ = (traceGens (gens, none, n)).getLast? := rfl

theorem run_equals_stream_last_witness :
    some genA = (((RunStream (NewChainSilent [constRunner genA]) ctxNone
      pHello []).1.values).getLast?) :=
  run_equals_stream_last (NewChainSilent [constRunner genA]) ctxNone pHello []
    (some genA) rfl

/-- C4: `RunStream` delivers exactly one Generation per successfully completed
step, in step order: N values and no terminal error when all N steps succeed,
and k-1 values (the outputs of steps 1..k-1, in order) followed by the failing
step's error when step k is the first to fail, after which no further runner
is invoked. -/
theorem stream_one_value_per_step (c : Chain) (ctx : Ctx) (p : Prompt)
    (opts : List ModelOption) :
    ((RunStream c ctx p opts).1.terminal = none →
      (RunStream c ctx p opts).1.values.length = c.runners.length ∧
      traceInvoked (runSteps ctx opts c.runners p) = c.runners.length) ∧
    (∀ (pre : List Runner) (rk : Runner) (post : List Runner)
       (gens : List Generation) (n : Nat) (e : String),
      c.runners = pre ++ rk :: post →
      runSteps ctx opts pre p = (gens, none, n) →
      rk ctx (stateAfter p gens) opts = Except.error e →
      (RunStream c ctx p opts).1.values = gens ∧
      gens.length = pre.length ∧
      (RunStream c ctx p opts).1.terminal = some e ∧
      traceInvoked (runSteps ctx opts c.runners p) = pre.length + 1) := by
  constructor
  · intro hterm
    have hs := runSteps_success_length ctx opts c.runners p hterm
    exact ⟨hs.1, hs.2⟩
  · intro pre rk post gens n e hsplit hpre hk
    have hlen : gens.length = pre.length := by
      have hs := (runSteps_success_length ctx opts pre p (by rw [hpre]; rfl)).1
      rw [hpre] at hs
      exact hs
    have hn : n = pre.length := by
      have hs := (runSteps_success_length ctx opts pre p (by rw [hpre]; rfl)).2
      rw [hpre] at hs
      exact hs
    have htr : runSteps ctx opts c.runners p = (gens, some e, n + 1) := by
      rw [hsplit]
      have h := runSteps_append ctx opts pre (rk :: post) p
      rw [hpre] at h
      simp only [runSteps, hk] at h
      simpa using h
    refine ⟨?_, hlen, ?_, ?_⟩
    · show traceGens (runSteps ctx opts c.runners p) = gens
      rw [htr]
      rfl
    · show traceErr (runSteps ctx opts c.runners p) = some e
      rw [htr]
      rfl
    · rw [htr, hn]
      rfl

theorem stream_one_value_per_step_witness :
    ((RunStream (NewChain [constRunner genA, constRunner genB]) ctxNone
        pHello []).1.values.length = 2 ∧
      traceInvoked (runSteps ctxNone [] [constRunner genA, constRunner genB]
        pHello) = 2) ∧
    ((RunStream (NewChain [constRunner genA, failRunner "x", constRunner genB])
        ctxNone pHello []).1.values = [genA] ∧
      ([genA] : List Generation).length = 1 ∧
      (RunStream (NewChain [constRunner genA, failRunner "x", constRunner genB])
        ctxNone pHello []).1.terminal = some "x" ∧
      traceInvoked (runSteps ctxNone []
        [constRunner genA, failRunner "x", constRunner genB] pHello) = 2) :=
  ⟨(stream_one_value_per_step (NewChain [constRunner genA, constRunner genB])
      ctxNone pHello []).1 rfl,
   (stream_one_value_per_step
      (NewChain [constRunner genA, failRunner "x", constRunner genB])
      ctxNone pHello []).2
      [constRunner genA] (failRunner "x") [constRunner genB] [genA] 1 "x"
      rfl rfl rfl⟩

/-- C5 counterexample: the claim fails on the code.  With a context cancelled
exactly after step 1 completes and before step 2 starts (and a step that, like
any step free to ignore its context, does not consult it), the stream producer
still invokes step 2 — it makes 2 invocations and delivers step 2's value,
where the claim requires step 2 never to be invoked. -/
theorem stream_cancellation_counterexample :
    (ctxCancelledFrom 2).cancelledBefore 1 = false ∧
    (ctxCancelledFrom 2).cancelledBefore 2 = true ∧
    traceInvoked (runSteps (ctxCancelledFrom 2) []
      [constRunner genA, constRunner genB] pHello) = 2 ∧
    (RunStream (NewChain [constRunner genA, constRunner genB])
      (ctxCancelledFrom 2) pHello []).1.values = [genA, genB] ∧
    ¬ (RunStream (NewChain [constRunner genA, constRunner genB])
      (ctxCancelledFrom 2) pHello []).1.values = [genA] := by
  refine ⟨rfl, rfl, rfl, rfl, by decide⟩

/-- C5 amended: the stream producer performs no cancellation check of its own
before starting a step; the governing context is forwarded unchanged to every
step, so the producer's trace and the resulting stream are identical under any
two contexts that every step of the chain treats identically — cancellation
stops the run only through a step returning an error (handled as any step
failure), while values of steps completed before that are still delivered. -/
theorem stream_cancellation_forwarded (c : Chain) (ctx ctx' : Ctx)
    (p : Prompt) (opts : List ModelOption)
    (h : ∀ r ∈ c.runners, ∀ q, r ctx q opts = r ctx' q opts) :
    runSteps ctx opts c.runners p = runSteps ctx' opts c.runners p ∧
    RunStream c ctx p opts = RunStream c ctx' p opts := by
  have main : ∀ (rs : List Runner),
      (∀ r ∈ rs, ∀ q, r ctx q opts = r ctx' q opts) →
      ∀ q, runSteps ctx opts rs q = runSteps ctx' opts rs q := by
    intro rs
    induction rs with
    | nil => intro _ q; rfl
    | cons r t ih =>
      intro hall q
      cases hr : r ctx q opts with
      | error e =>
        have hr' : r ctx' q opts = Except.error e := by
          rw [← hall r (List.mem_cons_self r t) q]
          exact hr
        simp [runSteps, hr, hr']
      | ok g =>
        have hr' : r ctx' q opts = Except.ok g := by
          rw [← hall r (List.mem_cons_self r t) q]
          exact hr
        have ht := ih (fun r' hr' q' => hall r' (List.mem_cons_of_mem r hr') q')
          (NewPrompt g.messages)
        simp [runSteps, hr, hr', ht]
  refine ⟨main c.runners h p, ?_⟩
  simp [RunStream, traceGens, traceErr, main c.runners h p]

theorem stream_cancellation_forwarded_witness :
    runSteps ctxNone [] [constRunner genA] pHello
      = runSteps (ctxCancelledFrom 1) [] [constRunner genA] pHello ∧
    RunStream (NewChain [constRunner genA]) ctxNone pHello []
      = RunStream (NewChain [constRunner genA]) (ctxCancelledFrom 1) pHello [] :=
  stream_cancellation_forwarded (NewChain [constRunner genA]) ctxNone
    (ctxCancelledFrom 1) pHello []
    (by
      intro r hr q
      simp only [NewChain, List.mem_singleton] at hr
      subst hr
      rfl)

/-- C6 counterexample: the claim fails on the code.  On a zero-step chain the
default (verbose) blocking `Run` does not terminate normally: after the empty
loop `finalResult` is still a nil `*blades.Generation` and the final
`finalResult.Text()` call dereferences it. -/
theorem empty_chain_counterexample :
    Run (NewChain []) ctxNone pHello [] = Outcome.panic ∧
    ∀ g e, ¬ Run (NewChain []) ctxNone pHello [] = Outcome.ret g e :=
  ⟨rfl, fun _ _ h => Outcome.noConfusion h⟩

/-- C6 amended: a chain constructed with zero steps is a no-op only in silent
mode, where blocking `Run` terminates normally returning a nil Generation and
a nil error for every prompt; in the default verbose mode blocking `Run`
dereferences the nil final Generation while printing the final result and
panics instead of terminating normally. -/
theorem empty_chain_behaviour (ctx : Ctx) (p : Prompt)
    (opts : List ModelOption) :
    Run (NewChainSilent []) ctx p opts = Outcome.ret none none ∧
    Run (NewChain []) ctx p opts = Outcome.panic :=
  ⟨rfl, rfl⟩

/-- C7: on the two-step chain [uppercase; append "!"] with input text
`"hello"`, blocking `Run` (in the default verbose mode and in silent mode)
returns the generation whose text is `"HELLO!"`, and `RunStream` emits exactly
the two values with texts `"HELLO"` then `"HELLO!"`, in that order, with no
terminal error. -/
theorem scenario_upper_exclaim :
    Run (NewChain [upperRunner, exclaimRunner]) ctxNone pHello []
      = Outcome.ret (some ⟨[assistantMessage "HELLO!"]⟩) none ∧
    Run (NewChainSilent [upperRunner, exclaimRunner]) ctxNone pHello []
      = Outcome.ret (some ⟨[assistantMessage "HELLO!"]⟩) none ∧
    Generation.Text ⟨[assistantMessage "HELLO!"]⟩ = "HELLO!" ∧
    ((RunStream (NewChain [upperRunner, exclaimRunner]) ctxNone pHello []).1.values.map Generation.Text) = ["HELLO", "HELLO!"] ∧
    (RunStream (NewChain [upperRunner, exclaimRunner]) ctxNone pHello []).1.terminal = none := by
  refine ⟨rfl, rfl, by decide, by decide, rfl⟩

/-- The Zeus role switch always lands in the closed set. -/
theorem mapRole_closed (r : String) :
    mapRole r = "system" ∨ mapRole r = "user" ∨ mapRole r = "assistant" := by
  unfold mapRole
  split <;> simp

/-- The Zeus role switch keeps roles of the closed set unchanged. -/
theorem mapRole_of_mem (r : String)
    (h : r = "system" ∨ r = "user" ∨ r = "assistant") : mapRole r = r := by
  rcases h with rfl | rfl | rfl <;> rfl

/-- The Zeus role switch sends any role outside the closed set to "user". -/
theorem mapRole_of_not_mem (r : String) (h1 : r ≠ "system") (h2 : r ≠ "user")
    (h3 : r ≠ "assistant") : mapRole r = "user" := by
  unfold mapRole
  split <;> simp_all

/-- C8: in the Zeus adapter's request conversion, every input message whose
role lies in the closed set {system, user, assistant} (and which is sent at
all, i.e. has non-empty text content) is sent with its role unchanged; every
input message whose role lies outside the set is sent with role "user"; and
every message of the outgoing request carries a role from the closed set. -/
theorem zeus_role_mapping (msgs : List Message) (m : Message)
    (hm : m ∈ msgs) (hc : m.textContent ≠ "") :
    (m.role = "system" ∨ m.role = "user" ∨ m.role = "assistant" →
      ZeusMessage.mk m.role m.textContent ∈ convertToZeusRequest msgs) ∧
    (m.role ≠ "system" → m.role ≠ "user" → m.role ≠ "assistant" →
      ZeusMessage.mk "user" m.textContent ∈ convertToZeusRequest msgs) ∧
    (∀ zm ∈ convertToZeusRequest msgs,
      zm.role = "system" ∨ zm.role = "user" ∨ zm.role = "assistant") := by
  refine ⟨?_, ?_, ?_⟩
  · intro hset
    rw [convertToZeusRequest_eq]
    refine List.mem_filterMap.mpr ⟨m, hm, ?_⟩
    simp [zeusEntry, hc, mapRole_of_mem m.role hset]
  · intro h1 h2 h3
    rw [convertToZeusRequest_eq]
    refine List.mem_filterMap.mpr ⟨m, hm, ?_⟩
    simp [zeusEntry, hc, mapRole_of_not_mem m.role h1 h2 h3]
  · intro zm hzm
    rw [convertToZeusRequest_eq] at hzm
    obtain ⟨a, _, hea⟩ := List.mem_filterMap.mp hzm
    simp only [zeusEntry] at hea
    by_cases ha : a.textContent = ""
    · simp [ha] at hea
    · simp only [ha, if_pos, ne_eq, not_false_iff, if_true] at hea
      obtain rfl : ZeusMessage.mk (mapRole a.role) a.textContent = zm :=
        Option.some.inj hea
      exact mapRole_closed a.role

theorem zeus_role_mapping_witness :
    ZeusMessage.mk "user" "T" ∈ convertToZeusRequest
      [⟨"tool", [Part.text "T"]⟩, userMessage "hi"] ∧
    ZeusMessage.mk "user" "hi" ∈ convertToZeusRequest
      [⟨"tool", [Part.text "T"]⟩, userMessage "hi"] :=
  ⟨(zeus_role_mapping [⟨"tool", [Part.text "T"]⟩, userMessage "hi"]
      ⟨"tool", [Part.text "T"]⟩ (by decide) (by decide)).2.1
      (by decide) (by decide) (by decide),
   (zeus_role_mapping [⟨"tool", [Part.text "T"]⟩, userMessage "hi"]
      (userMessage "hi") (by decide) (by decide)).1
      (Or.inr (Or.inl rfl))⟩

/-- The outgoing message list as the claim describes it: exactly the input
messages with non-empty concatenated text content, in their original order,
roles mapped at the adapter boundary. -/
def zeusSpecRequest (msgs : List Message) : List ZeusMessage :=
  (msgs.filter (fun m => decide (m.textContent ≠ ""))).map
    (fun m => ⟨mapRole m.role, m.textContent⟩)

/-- C9: the Zeus adapter silently omits every message whose concatenated
text-part content is empty (in particular messages consisting only of
file-reference or opaque-data parts), so the outgoing request's message list
is exactly the input messages with non-empty text content, in their original
order. -/
theorem zeus_omits_empty (msgs : List Message) :
    convertToZeusRequest msgs = zeusSpecRequest msgs := by
  rw [convertToZeusRequest_eq]
  induction msgs with
  | nil => rfl
  | cons m t ih =>
    by_cases hm : m.textContent = "" <;>
      simp [List.filterMap_cons, zeusEntry, hm, ih, zeusSpecRequest,
        List.filter_cons]

/-- C10: `RunStream` reports a nil error at call time for every chain, every
context, every prompt and every option list — a step failure is never
surfaced by the call itself, only as the stream's terminal event, which
carries exactly the producer trace's first error. -/
theorem runstream_calltime_nil_error (c : Chain) (ctx : Ctx) (p : Prompt)
    (opts : List ModelOption) :
    (RunStream c ctx p opts).2 = none ∧
    (RunStream c ctx p opts).1.terminal
      = traceErr (runSteps ctx opts c.runners p) :=
  ⟨rfl, rfl⟩

end Claims
